import Mathlib

/-!
# Verification of the BMF decoder and BMF→OBJ mapper (bmf2obj, src/main.rs)

Shallow embedding of the core of `src/main.rs`:

* bytes are modelled as `List Nat` (each element a byte value `< 256`);
* 32-bit floats are carried as their raw little-endian 32-bit patterns
  (a `Nat < 2^32`), exactly as they sit in the `f32` fields of the Rust
  `Vertex` struct; the Rust `as f64` cast is embedded as the IEEE-754
  binary32 → binary64 conversion on bit patterns;
* the fallible reader (`std::io::Read` + `read_exact` + `?`) becomes a
  state-threading parser `M α = List Nat → Option (α × List Nat)`.
-/

namespace Bmf2Obj

/-- Rust struct `Vertex { x, y, z : f32 }`; each field holds the raw
little-endian 32-bit pattern of the float. -/
structure Vertex where
  x : Nat
  y : Nat
  z : Nat
deriving DecidableEq, Repr

/-- Rust struct `Face { a, b, c : u32 }`. -/
structure Face where
  a : Nat
  b : Nat
  c : Nat
deriving DecidableEq, Repr

/-- Rust struct `Vertices { header, len : u32, vertices : Vec<Vertex>, footer : u32 }`. -/
structure Vertices where
  header : Nat
  len : Nat
  vertices : List Vertex
  footer : Nat
deriving DecidableEq, Repr

/-- Rust struct `Faces { header, len : u32, faces : Vec<Face>, footer : u32 }`. -/
structure Faces where
  header : Nat
  len : Nat
  faces : List Face
  footer : Nat
deriving DecidableEq, Repr

/-- Rust struct `Normals { header, len : u32, normals : Vec<Vertex>, footer : u32 }`. -/
structure Normals where
  header : Nat
  len : Nat
  normals : List Vertex
  footer : Nat
deriving DecidableEq, Repr

/-- Rust struct `Group { header : u32, faces : Faces, normals : Normals, footer : u32 }`. -/
structure Group where
  header : Nat
  faces : Faces
  normals : Normals
  footer : Nat
deriving DecidableEq, Repr

/-- Rust struct `BMF { header : u32, vertices : Vertices, group : Group, footer : u32 }`. -/
structure BMF where
  header : Nat
  vertices : Vertices
  group : Group
  footer : Nat
deriving DecidableEq, Repr

/-- `u32::from_le_bytes` / `f32::from_le_bytes` on a 4-byte slice: both
reassemble the same little-endian 32-bit pattern (for `f32` we keep the
pattern itself as the embedded value). -/
def from_le_bytes (b : List Nat) : Nat :=
  b.getD 0 0 + 256 * b.getD 1 0 + 65536 * b.getD 2 0 + 16777216 * b.getD 3 0

/-- Rust `as_vertex_le(array: &[u8; 12])`: fields from slices
`array[0..4]`, `array[4..8]`, `array[8..12]`. -/
def as_vertex_le (array : List Nat) : Vertex :=
  { x := from_le_bytes (array.take 4)
    y := from_le_bytes ((array.drop 4).take 4)
    z := from_le_bytes ((array.drop 8).take 4) }

/-- Rust `as_face_le(array: &[u8; 12])`. -/
def as_face_le (array : List Nat) : Face :=
  { a := from_le_bytes (array.take 4)
    b := from_le_bytes ((array.drop 4).take 4)
    c := from_le_bytes ((array.drop 8).take 4) }

/-- The reader monad: a computation consuming a prefix of the byte stream,
failing (like `read_exact` on a truncated stream) with `none`. -/
def M (α : Type) : Type := List Nat → Option (α × List Nat)

/-- Sequencing two reads; `?` in the Rust source. -/
def M.bind (p : M α) (q : α → M β) : M β := fun s =>
  match p s with
  | none => none
  | some (a, s') => q a s'

/-- A pure value, consuming nothing. -/
def M.pure (a : α) : M α := fun s => some (a, s)

instance : Monad M where
  bind := M.bind
  pure := M.pure

theorem M.bind_def (p : M α) (q : α → M β) : p >>= q = M.bind p q := rfl

theorem M.pure_def (a : α) : (Pure.pure a : M α) = M.pure a := rfl

/-- `reader.read_exact(&mut buffer)` with a 4-byte buffer: succeeds exactly
when at least 4 bytes remain, consuming them. -/
def read4 : M (List Nat) := fun s =>
  match s with
  | b0 :: b1 :: b2 :: b3 :: rest => some ([b0, b1, b2, b3], rest)
  | _ => none

/-- `read_exact` with a 12-byte buffer (`vert_buf` / `face_buf` / `norm_buf`). -/
def read12 : M (List Nat) := fun s =>
  match s with
  | b0 :: b1 :: b2 :: b3 :: b4 :: b5 :: b6 :: b7 :: b8 :: b9 :: b10 :: b11 :: rest =>
      some ([b0, b1, b2, b3, b4, b5, b6, b7, b8, b9, b10, b11], rest)
  | _ => none

/-- The `read_exact` + `u32::from_le_bytes` pair used for every header,
footer and length field of `load_bmf`. -/
def readU32 : M Nat := do
  let buffer ← read4
  pure (from_le_bytes buffer)

/-- The vertices loop of `load_bmf` (`for _i in 0..bmf.vertices.len`):
read `n` 12-byte records, each decoded by `as_vertex_le` and pushed in
order. -/
def readVertexRecords : Nat → M (List Vertex)
  | 0 => pure []
  | n + 1 => do
      let vert_buf ← read12
      let rest ← readVertexRecords n
      pure (as_vertex_le vert_buf :: rest)

/-- The faces loop of `load_bmf` (`for _i in 0..bmf.group.faces.len`). -/
def readFaceRecords : Nat → M (List Face)
  | 0 => pure []
  | n + 1 => do
      let face_buf ← read12
      let rest ← readFaceRecords n
      pure (as_face_le face_buf :: rest)

/-- Rust `load_bmf<R: Read>(reader) -> Result<BMF, io::Error>`
(src/main.rs lines 165–234): the strict sequential decode. The normals
loop reuses `as_vertex_le`, exactly as lines 216–222 do. -/
def load_bmf : M BMF := do
  let header ← readU32
  let vertices_header ← readU32
  let vertices_len ← readU32
  let vertices ← readVertexRecords vertices_len
  let vertices_footer ← readU32
  let group_header ← readU32
  let faces_header ← readU32
  let faces_len ← readU32
  let faces ← readFaceRecords faces_len
  let faces_footer ← readU32
  let normals_header ← readU32
  let normals_len ← readU32
  let normals ← readVertexRecords normals_len
  let normals_footer ← readU32
  let group_footer ← readU32
  let footer ← readU32
  pure
    { header := header
      vertices :=
        { header := vertices_header, len := vertices_len,
          vertices := vertices, footer := vertices_footer }
      group :=
        { header := group_header
          faces :=
            { header := faces_header, len := faces_len,
              faces := faces, footer := faces_footer }
          normals :=
            { header := normals_header, len := normals_len,
              normals := normals, footer := normals_footer }
          footer := group_footer }
      footer := footer }

/-! ## The OBJ side (types of the `obj_exporter` crate, as used by `main`) -/

/-- `obj_exporter::Vertex { x, y, z : f64 }`; fields hold raw 64-bit
patterns. -/
structure ObjVertex where
  x : Nat
  y : Nat
  z : Nat
deriving DecidableEq, Repr

/-- `obj_exporter::TVertex` (texture vertex); never constructed by `main`. -/
structure TVertex where
  u : Nat
  v : Nat
  w : Nat
deriving DecidableEq, Repr

/-- A `(VertexIndex, Option TextureIndex, Option NormalIndex)` triple. -/
def VTNIndex : Type := Nat × Option Nat × Option Nat

instance : DecidableEq VTNIndex := by
  unfold VTNIndex
  infer_instance

/-- `obj_exporter::Primitive`. -/
inductive Primitive where
  | Point : VTNIndex → Primitive
  | Line : VTNIndex → VTNIndex → Primitive
  | Triangle : VTNIndex → VTNIndex → VTNIndex → Primitive
deriving DecidableEq

/-- `obj_exporter::Shape`. -/
structure Shape where
  primitive : Primitive
  groups : List String
  smoothing_groups : List Nat
deriving DecidableEq

/-- `obj_exporter::Geometry`. -/
structure Geometry where
  material_name : Option String
  shapes : List Shape
deriving DecidableEq

/-- `obj_exporter::Object`. -/
structure Object where
  name : String
  vertices : List ObjVertex
  tex_vertices : List TVertex
  normals : List ObjVertex
  geometry : List Geometry
deriving DecidableEq

/-- `obj_exporter::ObjSet`. -/
structure ObjSet where
  material_library : Option String
  objects : List Object
deriving DecidableEq

/-- Sign bit of a binary32 pattern. -/
def sign32 (b : Nat) : Nat := b / 2 ^ 31 % 2

/-- Biased exponent field (8 bits) of a binary32 pattern. -/
def exp32 (b : Nat) : Nat := b / 2 ^ 23 % 2 ^ 8

/-- Fraction field (23 bits) of a binary32 pattern. -/
def frac32 (b : Nat) : Nat := b % 2 ^ 23

/-- Sign bit of a binary64 pattern. -/
def sign64 (b : Nat) : Nat := b / 2 ^ 63 % 2

/-- Biased exponent field (11 bits) of a binary64 pattern. -/
def exp64 (b : Nat) : Nat := b / 2 ^ 52 % 2 ^ 11

/-- Fraction field (52 bits) of a binary64 pattern. -/
def frac64 (b : Nat) : Nat := b % 2 ^ 52

/-- The binary32 pattern denotes a finite number (not an infinity or NaN). -/
def isFinite32 (b : Nat) : Prop := exp32 b ≠ 255

instance (b : Nat) : Decidable (isFinite32 b) := by
  unfold isFinite32
  infer_instance

/-- The real (rational) number denoted by a finite binary32 pattern:
`(-1)^s · 0.f · 2^(-126)` when the exponent field is zero (subnormal),
`(-1)^s · 1.f · 2^(e-127)` otherwise. -/
def val32 (b : Nat) : ℚ :=
  if exp32 b = 0 then (-1) ^ sign32 b * (frac32 b : ℚ) * (2 : ℚ) ^ (-(149 : ℤ))
  else (-1) ^ sign32 b * ((2 ^ 23 + frac32 b : Nat) : ℚ) * (2 : ℚ) ^ ((exp32 b : ℤ) - 150)

/-- The real (rational) number denoted by a finite binary64 pattern. -/
def val64 (b : Nat) : ℚ :=
  if exp64 b = 0 then (-1) ^ sign64 b * (frac64 b : ℚ) * (2 : ℚ) ^ (-(1074 : ℤ))
  else (-1) ^ sign64 b * ((2 ^ 52 + frac64 b : Nat) : ℚ) * (2 : ℚ) ^ ((exp64 b : ℤ) - 1075)

/-- The Rust `v.x as f64` cast on an `f32`, embedded on bit patterns: the
IEEE-754 binary32 → binary64 conversion (sign preserved; normal numbers
re-biased `e + (1023 - 127)` with the 23-bit significand shifted into the
top of the 52-bit field; subnormals normalized — exact because every
binary32 value is representable in binary64; infinities and NaNs map to
exponent field 2047). -/
def f32ToF64bits (b : Nat) : Nat :=
  if exp32 b = 255 then sign32 b * 2 ^ 63 + 2047 * 2 ^ 52 + frac32 b * 2 ^ 29
  else if exp32 b = 0 then
    if frac32 b = 0 then sign32 b * 2 ^ 63
    else sign32 b * 2 ^ 63 + (Nat.log2 (frac32 b) + 874) * 2 ^ 52 +
      (frac32 b - 2 ^ Nat.log2 (frac32 b)) * 2 ^ (52 - Nat.log2 (frac32 b))
  else sign32 b * 2 ^ 63 + (exp32 b + 896) * 2 ^ 52 + frac32 b * 2 ^ 29

/-- `main`, lines 265–270: BMF vertices to OBJ vertices (`v.x as f64` per
coordinate, in order, no scaling). -/
def obj_verts (bmf : BMF) : List ObjVertex :=
  bmf.vertices.vertices.map fun v =>
    { x := f32ToF64bits v.x, y := f32ToF64bits v.y, z := f32ToF64bits v.z }

/-- `main`, lines 274–283: each BMF face becomes a `Triangle` shape with
index-only references (`f.a as VertexIndex` is the value-preserving
u32 → usize widening), empty `groups` and empty `smoothing_groups`. -/
def obj_shapes (bmf : BMF) : List Shape :=
  bmf.group.faces.faces.map fun f =>
    { primitive := Primitive.Triangle (f.a, none, none) (f.b, none, none) (f.c, none, none)
      groups := []
      smoothing_groups := [] }

/-- `main`, lines 286–298: the exported object set — one unnamed object,
one geometry block, no material library, no texture vertices, no normals. -/
def object_set (bmf : BMF) : ObjSet :=
  { material_library := none
    objects :=
      [{ name := ""
         vertices := obj_verts bmf
         tex_vertices := []
         normals := []
         geometry := [{ material_name := none, shapes := obj_shapes bmf }] }] }

/-! ## The wire layout, modelled from the spec (§3)

`load_bmf` only decodes; the claims about round-trips and truncation
quantify over "byte streams laid out per the fixed BMF format", so the
layout itself is written out here as an encoder, following the spec's §3
table and §4.1 step list word for word. -/

/-- Modelled from the spec: a 32-bit field "little-endian on the wire"
(spec §3); the four base-256 digits, least significant first. -/
def u32bytes (v : Nat) : List Nat :=
  [v % 256, v / 256 % 256, v / 65536 % 256, v / 16777216 % 256]

/-- Modelled from the spec: a 12-byte Vertex record, "three consecutive
little-endian float32 values (x, y, z)" (spec §4.1 step 4). -/
def vertexBytes (v : Vertex) : List Nat :=
  u32bytes v.x ++ u32bytes v.y ++ u32bytes v.z

/-- Modelled from the spec: a 12-byte Face record, "three little-endian
uint32 values (a, b, c)" (spec §4.1 step 9). -/
def faceBytes (f : Face) : List Nat :=
  u32bytes f.a ++ u32bytes f.b ++ u32bytes f.c

/-- Modelled from the spec: `N × 12` bytes of consecutive Vertex records. -/
def vertexListBytes : List Vertex → List Nat
  | [] => []
  | v :: vs => vertexBytes v ++ vertexListBytes vs

/-- Modelled from the spec: `M × 12` bytes of consecutive Face records. -/
def faceListBytes : List Face → List Nat
  | [] => []
  | f :: fs => faceBytes f ++ faceListBytes fs

/-- Modelled from the spec: the full §3 document layout — document header;
vertices block (header, count, records, footer); group (header; faces
block; normals block; footer); document footer. -/
def specEncodeBMF (d : BMF) : List Nat :=
  u32bytes d.header ++
  u32bytes d.vertices.header ++
  u32bytes d.vertices.len ++
  vertexListBytes d.vertices.vertices ++
  u32bytes d.vertices.footer ++
  u32bytes d.group.header ++
  u32bytes d.group.faces.header ++
  u32bytes d.group.faces.len ++
  faceListBytes d.group.faces.faces ++
  u32bytes d.group.faces.footer ++
  u32bytes d.group.normals.header ++
  u32bytes d.group.normals.len ++
  vertexListBytes d.group.normals.normals ++
  u32bytes d.group.normals.footer ++
  u32bytes d.group.footer ++
  u32bytes d.footer

/-- The fields of a Vertex record fit in 32 bits. -/
def wfVertex (v : Vertex) : Prop :=
  v.x < 2 ^ 32 ∧ v.y < 2 ^ 32 ∧ v.z < 2 ^ 32

instance (v : Vertex) : Decidable (wfVertex v) := by
  unfold wfVertex
  infer_instance

/-- The fields of a Face record fit in 32 bits. -/
def wfFace (f : Face) : Prop :=
  f.a < 2 ^ 32 ∧ f.b < 2 ^ 32 ∧ f.c < 2 ^ 32

instance (f : Face) : Decidable (wfFace f) := by
  unfold wfFace
  infer_instance

/-- A document is structurally consistent with the §3 layout: every 32-bit
field is in range and each block's count equals its element count. -/
def wfBMF (d : BMF) : Prop :=
  d.header < 2 ^ 32 ∧ d.footer < 2 ^ 32 ∧
  d.vertices.header < 2 ^ 32 ∧ d.vertices.footer < 2 ^ 32 ∧
  d.vertices.len = d.vertices.vertices.length ∧
  (∀ v ∈ d.vertices.vertices, wfVertex v) ∧
  d.group.header < 2 ^ 32 ∧ d.group.footer < 2 ^ 32 ∧
  d.group.faces.header < 2 ^ 32 ∧ d.group.faces.footer < 2 ^ 32 ∧
  d.group.faces.len = d.group.faces.faces.length ∧
  (∀ f ∈ d.group.faces.faces, wfFace f) ∧
  d.group.normals.header < 2 ^ 32 ∧ d.group.normals.footer < 2 ^ 32 ∧
  d.group.normals.len = d.group.normals.normals.length ∧
  (∀ v ∈ d.group.normals.normals, wfVertex v) ∧
  d.vertices.vertices.length < 2 ^ 32 ∧
  d.group.faces.faces.length < 2 ^ 32 ∧
  d.group.normals.normals.length < 2 ^ 32

instance (d : BMF) : Decidable (wfBMF d) := by
  unfold wfBMF
  infer_instance

/-! ## Evaluation of the decoder on encoded streams -/

theorem M.bind_of_eq {p : M α} (q : α → M β) {s s' : List Nat} {a : α}
    (h : p s = some (a, s')) : M.bind p q s = q a s' := by
  simp [M.bind, h]

theorem read12_step (q : List Nat → M β) (b0 b1 b2 b3 b4 b5 b6 b7 b8 b9 b10 b11 : Nat)
    (t : List Nat) :
    M.bind read12 q (b0 :: b1 :: b2 :: b3 :: b4 :: b5 :: b6 :: b7 :: b8 :: b9 :: b10 :: b11 :: t) =
      q [b0, b1, b2, b3, b4, b5, b6, b7, b8, b9, b10, b11] t := rfl

theorem readU32_encode (v : Nat) (h : v < 2 ^ 32) (t : List Nat) :
    readU32 (u32bytes v ++ t) = some (v, t) := by
  simp only [readU32, M.bind_def, M.pure_def, u32bytes, List.cons_append, List.nil_append]
  simp only [M.bind, read4, M.pure, from_le_bytes, List.getD_cons_zero, List.getD_cons_succ,
    Option.some.injEq, Prod.mk.injEq]
  exact ⟨by omega, trivial⟩

theorem readU32_encode_nil (v : Nat) (h : v < 2 ^ 32) :
    readU32 (u32bytes v) = some (v, []) := by
  have := readU32_encode v h []
  simpa using this

theorem readU32_step (q : Nat → M β) (v : Nat) (h : v < 2 ^ 32) (t : List Nat) :
    M.bind readU32 q (u32bytes v ++ t) = q v t :=
  M.bind_of_eq q (readU32_encode v h t)

theorem readVertexRecords_encode :
    ∀ vs : List Vertex, (∀ v ∈ vs, wfVertex v) → ∀ t : List Nat,
      readVertexRecords vs.length (vertexListBytes vs ++ t) = some (vs, t) := by
  intro vs
  induction vs with
  | nil => intro _ t; rfl
  | cons v vs ih =>
      intro h t
      have hrest : ∀ x ∈ vs, wfVertex x := fun x hx => h x (List.mem_cons_of_mem v hx)
      obtain ⟨x, y, z⟩ := v
      have hx : x < 2 ^ 32 := (h ⟨x, y, z⟩ (List.mem_cons_self _ _)).1
      have hy : y < 2 ^ 32 := (h ⟨x, y, z⟩ (List.mem_cons_self _ _)).2.1
      have hz : z < 2 ^ 32 := (h ⟨x, y, z⟩ (List.mem_cons_self _ _)).2.2
      simp only [vertexListBytes, vertexBytes, u32bytes, List.append_assoc, List.cons_append,
        List.nil_append, List.length_cons, readVertexRecords, M.bind_def, M.pure_def]
      rw [read12_step, M.bind_of_eq _ (ih hrest t)]
      simp only [M.pure, as_vertex_le, from_le_bytes, List.take_succ_cons, List.take_zero,
        List.drop_succ_cons, List.drop_zero, List.getD_cons_zero, List.getD_cons_succ,
        Option.some.injEq, Prod.mk.injEq, List.cons.injEq, Vertex.mk.injEq]
      repeat' apply And.intro
      all_goals first | omega | trivial

theorem readFaceRecords_encode :
    ∀ fs : List Face, (∀ f ∈ fs, wfFace f) → ∀ t : List Nat,
      readFaceRecords fs.length (faceListBytes fs ++ t) = some (fs, t) := by
  intro fs
  induction fs with
  | nil => intro _ t; rfl
  | cons f fs ih =>
      intro h t
      have hrest : ∀ x ∈ fs, wfFace x := fun x hx => h x (List.mem_cons_of_mem f hx)
      obtain ⟨a, b, c⟩ := f
      have ha : a < 2 ^ 32 := (h ⟨a, b, c⟩ (List.mem_cons_self _ _)).1
      have hb : b < 2 ^ 32 := (h ⟨a, b, c⟩ (List.mem_cons_self _ _)).2.1
      have hc : c < 2 ^ 32 := (h ⟨a, b, c⟩ (List.mem_cons_self _ _)).2.2
      simp only [faceListBytes, faceBytes, u32bytes, List.append_assoc, List.cons_append,
        List.nil_append, List.length_cons, readFaceRecords, M.bind_def, M.pure_def]
      rw [read12_step, M.bind_of_eq _ (ih hrest t)]
      simp only [M.pure, as_face_le, from_le_bytes, List.take_succ_cons, List.take_zero,
        List.drop_succ_cons, List.drop_zero, List.getD_cons_zero, List.getD_cons_succ,
        Option.some.injEq, Prod.mk.injEq, List.cons.injEq, Face.mk.injEq]
      repeat' apply And.intro
      all_goals first | omega | trivial

theorem readVertexRecords_step (q : List Vertex → M β) (vs : List Vertex)
    (h : ∀ v ∈ vs, wfVertex v) (t : List Nat) :
    M.bind (readVertexRecords vs.length) q (vertexListBytes vs ++ t) = q vs t :=
  M.bind_of_eq q (readVertexRecords_encode vs h t)

theorem readFaceRecords_step (q : List Face → M β) (fs : List Face)
    (h : ∀ f ∈ fs, wfFace f) (t : List Nat) :
    M.bind (readFaceRecords fs.length) q (faceListBytes fs ++ t) = q fs t :=
  M.bind_of_eq q (readFaceRecords_encode fs h t)

/-- Decoding an encoded well-formed document recovers it exactly,
consuming the whole stream. -/
theorem load_bmf_specEncode (d : BMF) (h : wfBMF d) :
    load_bmf (specEncodeBMF d) = some (d, []) := by
  obtain ⟨hdr, ⟨vh, vlen, verts, vf⟩, ⟨gh, ⟨fh, flen, faces, ff⟩, ⟨nh, nlen, norms, nf⟩, gf⟩,
    ftr⟩ := d
  obtain ⟨h1, h2, h3, h4, h5, h6, h7, h8, h9, h10, h11, h12, h13, h14, h15, h16, h17, h18,
    h19⟩ := h
  simp only at h1 h2 h3 h4 h5 h6 h7 h8 h9 h10 h11 h12 h13 h14 h15 h16 h17 h18 h19
  subst h5; subst h11; subst h15
  simp only [load_bmf, M.bind_def, M.pure_def, specEncodeBMF, List.append_assoc]
  rw [readU32_step _ hdr h1, readU32_step _ vh h3, readU32_step _ verts.length h17,
    readVertexRecords_step _ verts h6, readU32_step _ vf h4, readU32_step _ gh h7,
    readU32_step _ fh h9, readU32_step _ faces.length h18,
    readFaceRecords_step _ faces h12, readU32_step _ ff h10, readU32_step _ nh h13,
    readU32_step _ norms.length h19, readVertexRecords_step _ norms h16,
    readU32_step _ nf h14, readU32_step _ gf h8,
    M.bind_of_eq _ (readU32_encode_nil ftr h2)]
  rfl

/-! ## Inversion lemmas: what a successful read says about the stream -/

theorem M.bind_inv {p : M α} {q : α → M β} {s : List Nat} {b : β} {s2 : List Nat}
    (h : M.bind p q s = some (b, s2)) :
    ∃ a s1, p s = some (a, s1) ∧ q a s1 = some (b, s2) := by
  unfold M.bind at h
  split at h
  · exact absurd h (by simp)
  · rename_i a s1 heq
    exact ⟨a, s1, heq, h⟩

theorem M.pure_inv {a b : α} {s s2 : List Nat} (h : M.pure a s = some (b, s2)) :
    b = a ∧ s2 = s := by
  simp only [M.pure, Option.some.injEq, Prod.mk.injEq] at h
  exact ⟨h.1.symm, h.2.symm⟩

theorem read4_inv {s : List Nat} {b : List Nat} {rest : List Nat}
    (h : read4 s = some (b, rest)) :
    ∃ b0 b1 b2 b3, b = [b0, b1, b2, b3] ∧ s = b0 :: b1 :: b2 :: b3 :: rest := by
  unfold read4 at h
  split at h
  · rename_i b0 b1 b2 b3 t
    simp only [Option.some.injEq, Prod.mk.injEq] at h
    exact ⟨b0, b1, b2, b3, h.1.symm, by rw [h.2]⟩
  · exact absurd h (by simp)

theorem read12_inv {s : List Nat} {b : List Nat} {rest : List Nat}
    (h : read12 s = some (b, rest)) :
    ∃ b0 b1 b2 b3 b4 b5 b6 b7 b8 b9 b10 b11,
      b = [b0, b1, b2, b3, b4, b5, b6, b7, b8, b9, b10, b11] ∧
      s = b0 :: b1 :: b2 :: b3 :: b4 :: b5 :: b6 :: b7 :: b8 :: b9 :: b10 :: b11 :: rest := by
  unfold read12 at h
  split at h
  · rename_i b0 b1 b2 b3 b4 b5 b6 b7 b8 b9 b10 b11 t
    simp only [Option.some.injEq, Prod.mk.injEq] at h
    exact ⟨b0, b1, b2, b3, b4, b5, b6, b7, b8, b9, b10, b11, h.1.symm, by rw [h.2]⟩
  · exact absurd h (by simp)

theorem readU32_len {s : List Nat} {v : Nat} {s' : List Nat}
    (h : readU32 s = some (v, s')) : s.length = 4 + s'.length := by
  have h' : M.bind read4 (fun buffer => M.pure (from_le_bytes buffer)) s = some (v, s') := h
  obtain ⟨b, s1, h4, hp⟩ := M.bind_inv h'
  obtain ⟨-, hs1⟩ := M.pure_inv hp
  obtain ⟨b0, b1, b2, b3, -, hs⟩ := read4_inv h4
  subst hs1
  rw [hs]
  simp only [List.length_cons]
  omega

theorem readVertexRecords_len :
    ∀ {n : Nat} {s : List Nat} {vs : List Vertex} {s' : List Nat},
      readVertexRecords n s = some (vs, s') →
      vs.length = n ∧ s.length = 12 * n + s'.length := by
  intro n
  induction n with
  | zero =>
      intro s vs s' h
      obtain ⟨hvs, hs⟩ := M.pure_inv (a := ([] : List Vertex)) h
      subst hvs; subst hs
      simp
  | succ n ih =>
      intro s vs s' h
      have h' : M.bind read12 (fun vert_buf => M.bind (readVertexRecords n)
          (fun rest => M.pure (as_vertex_le vert_buf :: rest))) s = some (vs, s') := h
      obtain ⟨b, s1, h12, h'⟩ := M.bind_inv h'
      obtain ⟨rest, s2, hrec, hp⟩ := M.bind_inv h'
      obtain ⟨hvs, hs2⟩ := M.pure_inv hp
      obtain ⟨b0, b1, b2, b3, b4, b5, b6, b7, b8, b9, b10, b11, -, hs⟩ := read12_inv h12
      obtain ⟨hlen, hslen⟩ := ih hrec
      subst hvs; subst hs2
      constructor
      · simp [hlen]
      · rw [hs]

        simp only [List.length_cons]
        omega

theorem readFaceRecords_len :
    ∀ {n : Nat} {s : List Nat} {fs : List Face} {s' : List Nat},
      readFaceRecords n s = some (fs, s') →
      fs.length = n ∧ s.length = 12 * n + s'.length := by
  intro n
  induction n with
  | zero =>
      intro s fs s' h
      obtain ⟨hfs, hs⟩ := M.pure_inv (a := ([] : List Face)) h
      subst hfs; subst hs
      simp
  | succ n ih =>
      intro s fs s' h
      have h' : M.bind read12 (fun face_buf => M.bind (readFaceRecords n)
          (fun rest => M.pure (as_face_le face_buf :: rest))) s = some (fs, s') := h
      obtain ⟨b, s1, h12, h'⟩ := M.bind_inv h'
      obtain ⟨rest, s2, hrec, hp⟩ := M.bind_inv h'
      obtain ⟨hfs, hs2⟩ := M.pure_inv hp
      obtain ⟨b0, b1, b2, b3, b4, b5, b6, b7, b8, b9, b10, b11, -, hs⟩ := read12_inv h12
      obtain ⟨hlen, hslen⟩ := ih hrec
      subst hfs; subst hs2
      constructor
      · simp [hlen]
      · rw [hs]
        simp only [List.length_cons]
        omega

/-! ## Prefix behaviour of the sequential reader

A reader `Consumed` a definite prefix: on success the stream splits as
consumed-prefix ++ leftover, the read is oblivious to what follows the
prefix, and every strict truncation of the prefix makes it fail. This is
the formal content of `read_exact`'s All-or-nothing contract propagated
through `?`-sequencing. -/

def Consumed (p : M α) : Prop :=
  ∀ s a rest, p s = some (a, rest) →
    ∃ c, s = c ++ rest ∧
      (∀ t, p (c ++ t) = some (a, t)) ∧
      (∀ k, k < c.length → p (c.take k) = none)

theorem consumed_pure (a : α) : Consumed (M.pure a) := by
  intro s b rest h
  obtain ⟨hb, hrest⟩ := M.pure_inv h
  subst hb; subst hrest
  exact ⟨[], rfl, fun t => rfl, fun k hk => absurd hk (by simp)⟩

theorem consumed_bind {p : M α} {q : α → M β} (hp : Consumed p)
    (hq : ∀ a, Consumed (q a)) : Consumed (M.bind p q) := by
  intro s b rest h
  obtain ⟨a, s1, h1, h2⟩ := M.bind_inv h
  obtain ⟨c1, hs, hext1, htr1⟩ := hp s a s1 h1
  obtain ⟨c2, hs1, hext2, htr2⟩ := hq a s1 b rest h2
  refine ⟨c1 ++ c2, by rw [hs, hs1, List.append_assoc], ?_, ?_⟩
  · intro t
    rw [List.append_assoc]
    rw [M.bind_of_eq _ (hext1 (c2 ++ t))]
    exact hext2 t
  · intro k hk
    rcases Nat.lt_or_ge k c1.length with hk1 | hk1
    · have htake : (c1 ++ c2).take k = c1.take k :=
        List.take_append_of_le_length (Nat.le_of_lt hk1)
      rw [htake]
      simp [M.bind, htr1 k hk1]
    · have htake : (c1 ++ c2).take k = c1 ++ c2.take (k - c1.length) := by
        rw [List.take_append_eq_append_take, List.take_of_length_le hk1]
      rw [htake, M.bind_of_eq _ (hext1 (c2.take (k - c1.length)))]
      apply htr2
      simp only [List.length_append] at hk
      omega

theorem consumed_read4 : Consumed read4 := by
  intro s a rest h
  obtain ⟨b0, b1, b2, b3, hb, hs⟩ := read4_inv h
  subst hb; subst hs
  refine ⟨[b0, b1, b2, b3], rfl, fun t => rfl, ?_⟩
  intro k hk
  simp only [List.length_cons, List.length_nil] at hk
  interval_cases k <;> rfl

theorem consumed_read12 : Consumed read12 := by
  intro s a rest h
  obtain ⟨b0, b1, b2, b3, b4, b5, b6, b7, b8, b9, b10, b11, hb, hs⟩ := read12_inv h
  subst hb; subst hs
  refine ⟨[b0, b1, b2, b3, b4, b5, b6, b7, b8, b9, b10, b11], rfl, fun t => rfl, ?_⟩
  intro k hk
  simp only [List.length_cons, List.length_nil] at hk
  interval_cases k <;> rfl

theorem consumed_readU32 : Consumed readU32 := by
  have h : readU32 = M.bind read4 (fun buffer => M.pure (from_le_bytes buffer)) := rfl
  rw [h]
  exact consumed_bind consumed_read4 (fun b => consumed_pure _)

theorem consumed_readVertexRecords (n : Nat) : Consumed (readVertexRecords n) := by
  induction n with
  | zero => exact consumed_pure []
  | succ n ih =>
      have h : readVertexRecords (n + 1) = M.bind read12 (fun vert_buf =>
          M.bind (readVertexRecords n) (fun rest =>
            M.pure (as_vertex_le vert_buf :: rest))) := rfl
      rw [h]
      exact consumed_bind consumed_read12
        (fun _ => consumed_bind ih (fun _ => consumed_pure _))

theorem consumed_readFaceRecords (n : Nat) : Consumed (readFaceRecords n) := by
  induction n with
  | zero => exact consumed_pure []
  | succ n ih =>
      have h : readFaceRecords (n + 1) = M.bind read12 (fun face_buf =>
          M.bind (readFaceRecords n) (fun rest =>
            M.pure (as_face_le face_buf :: rest))) := rfl
      rw [h]
      exact consumed_bind consumed_read12
        (fun _ => consumed_bind ih (fun _ => consumed_pure _))

theorem consumed_load_bmf : Consumed load_bmf := by
  unfold load_bmf
  simp only [M.bind_def, M.pure_def]
  apply consumed_bind consumed_readU32; intro header
  apply consumed_bind consumed_readU32; intro vertices_header
  apply consumed_bind consumed_readU32; intro vertices_len
  apply consumed_bind (consumed_readVertexRecords _); intro vertices
  apply consumed_bind consumed_readU32; intro vertices_footer
  apply consumed_bind consumed_readU32; intro group_header
  apply consumed_bind consumed_readU32; intro faces_header
  apply consumed_bind consumed_readU32; intro faces_len
  apply consumed_bind (consumed_readFaceRecords _); intro faces
  apply consumed_bind consumed_readU32; intro faces_footer
  apply consumed_bind consumed_readU32; intro normals_header
  apply consumed_bind consumed_readU32; intro normals_len
  apply consumed_bind (consumed_readVertexRecords _); intro normals
  apply consumed_bind consumed_readU32; intro normals_footer
  apply consumed_bind consumed_readU32; intro group_footer
  apply consumed_bind consumed_readU32; intro footer
  exact consumed_pure _

/-- Master inversion: a successful decode pins down the counts against the
materialized lists and the exact number of bytes consumed. -/
theorem load_bmf_inv {s : List Nat} {d : BMF} {rest : List Nat}
    (h : load_bmf s = some (d, rest)) :
    d.vertices.vertices.length = d.vertices.len ∧
    d.group.faces.faces.length = d.group.faces.len ∧
    d.group.normals.normals.length = d.group.normals.len ∧
    s.length = 52 + 12 * (d.vertices.len + d.group.faces.len + d.group.normals.len) +
      rest.length ∧
    rest = s.drop
      (52 + 12 * (d.vertices.len + d.group.faces.len + d.group.normals.len)) := by
  have h' := h
  unfold load_bmf at h'
  simp only [M.bind_def, M.pure_def] at h'
  obtain ⟨hdr, s1, e1, h'⟩ := M.bind_inv h'
  obtain ⟨vh, s2, e2, h'⟩ := M.bind_inv h'
  obtain ⟨vlen, s3, e3, h'⟩ := M.bind_inv h'
  obtain ⟨verts, s4, e4, h'⟩ := M.bind_inv h'
  obtain ⟨vf, s5, e5, h'⟩ := M.bind_inv h'
  obtain ⟨gh, s6, e6, h'⟩ := M.bind_inv h'
  obtain ⟨fh, s7, e7, h'⟩ := M.bind_inv h'
  obtain ⟨flen, s8, e8, h'⟩ := M.bind_inv h'
  obtain ⟨faces, s9, e9, h'⟩ := M.bind_inv h'
  obtain ⟨ff, s10, e10, h'⟩ := M.bind_inv h'
  obtain ⟨nh, s11, e11, h'⟩ := M.bind_inv h'
  obtain ⟨nlen, s12, e12, h'⟩ := M.bind_inv h'
  obtain ⟨norms, s13, e13, h'⟩ := M.bind_inv h'
  obtain ⟨nf, s14, e14, h'⟩ := M.bind_inv h'
  obtain ⟨gf, s15, e15, h'⟩ := M.bind_inv h'
  obtain ⟨ftr, s16, e16, h'⟩ := M.bind_inv h'
  obtain ⟨hd, hrest⟩ := M.pure_inv h'
  have l1 := readU32_len e1
  have l2 := readU32_len e2
  have l3 := readU32_len e3
  obtain ⟨lv, l4⟩ := readVertexRecords_len e4
  have l5 := readU32_len e5
  have l6 := readU32_len e6
  have l7 := readU32_len e7
  have l8 := readU32_len e8
  obtain ⟨lf, l9⟩ := readFaceRecords_len e9
  have l10 := readU32_len e10
  have l11 := readU32_len e11
  have l12 := readU32_len e12
  obtain ⟨ln, l13⟩ := readVertexRecords_len e13
  have l14 := readU32_len e14
  have l15 := readU32_len e15
  have l16 := readU32_len e16
  subst hd
  subst hrest
  simp only
  refine ⟨lv, lf, ln, by omega, ?_⟩
  obtain ⟨c, hs, -, -⟩ := consumed_load_bmf s _ _ h
  have hclen : c.length = 52 + 12 * (vlen + flen + nlen) := by
    have := congrArg List.length hs
    simp only [List.length_append] at this
    omega
  rw [hs, ← hclen, List.drop_left]

/-! ## Byte-level reconstruction: re-encoding a decode recovers the stream -/

theorem u32bytes_reconstruct {b0 b1 b2 b3 : Nat} (h0 : b0 < 256) (h1 : b1 < 256)
    (h2 : b2 < 256) (h3 : b3 < 256) :
    u32bytes (from_le_bytes [b0, b1, b2, b3]) = [b0, b1, b2, b3] := by
  simp only [u32bytes, from_le_bytes, List.getD_cons_zero, List.getD_cons_succ,
    List.cons.injEq]
  repeat' apply And.intro
  all_goals first | omega | trivial

theorem vertexBytes_reconstruct {b0 b1 b2 b3 b4 b5 b6 b7 b8 b9 b10 b11 : Nat}
    (h0 : b0 < 256) (h1 : b1 < 256) (h2 : b2 < 256) (h3 : b3 < 256) (h4 : b4 < 256)
    (h5 : b5 < 256) (h6 : b6 < 256) (h7 : b7 < 256) (h8 : b8 < 256) (h9 : b9 < 256)
    (h10 : b10 < 256) (h11 : b11 < 256) :
    vertexBytes (as_vertex_le [b0, b1, b2, b3, b4, b5, b6, b7, b8, b9, b10, b11]) =
      [b0, b1, b2, b3, b4, b5, b6, b7, b8, b9, b10, b11] := by
  simp only [vertexBytes, as_vertex_le, u32bytes, from_le_bytes, List.take_succ_cons,
    List.take_zero, List.drop_succ_cons, List.drop_zero, List.getD_cons_zero,
    List.getD_cons_succ, List.cons_append, List.nil_append, List.cons.injEq]
  repeat' apply And.intro
  all_goals first | omega | trivial

theorem faceBytes_reconstruct {b0 b1 b2 b3 b4 b5 b6 b7 b8 b9 b10 b11 : Nat}
    (h0 : b0 < 256) (h1 : b1 < 256) (h2 : b2 < 256) (h3 : b3 < 256) (h4 : b4 < 256)
    (h5 : b5 < 256) (h6 : b6 < 256) (h7 : b7 < 256) (h8 : b8 < 256) (h9 : b9 < 256)
    (h10 : b10 < 256) (h11 : b11 < 256) :
    faceBytes (as_face_le [b0, b1, b2, b3, b4, b5, b6, b7, b8, b9, b10, b11]) =
      [b0, b1, b2, b3, b4, b5, b6, b7, b8, b9, b10, b11] := by
  simp only [faceBytes, as_face_le, u32bytes, from_le_bytes, List.take_succ_cons,
    List.take_zero, List.drop_succ_cons, List.drop_zero, List.getD_cons_zero,
    List.getD_cons_succ, List.cons_append, List.nil_append, List.cons.injEq]
  repeat' apply And.intro
  all_goals first | omega | trivial

theorem bytes_suffix {pre s' s : List Nat} (hs : s = pre ++ s')
    (hb : ∀ x ∈ s, x < 256) : ∀ x ∈ s', x < 256 :=
  fun x hx => hb x (hs ▸ List.mem_append_right pre hx)

theorem readU32_bytes {s : List Nat} {v : Nat} {s' : List Nat}
    (h : readU32 s = some (v, s')) (hb : ∀ x ∈ s, x < 256) :
    s = u32bytes v ++ s' := by
  have h' : M.bind read4 (fun buffer => M.pure (from_le_bytes buffer)) s = some (v, s') := h
  obtain ⟨b, s1, h4, hp⟩ := M.bind_inv h'
  obtain ⟨hv, hs1⟩ := M.pure_inv hp
  obtain ⟨b0, b1, b2, b3, hbb, hs⟩ := read4_inv h4
  subst hbb; subst hs1; subst hv
  have m0 : b0 < 256 := hb b0 (by rw [hs]; simp)
  have m1 : b1 < 256 := hb b1 (by rw [hs]; simp)
  have m2 : b2 < 256 := hb b2 (by rw [hs]; simp)
  have m3 : b3 < 256 := hb b3 (by rw [hs]; simp)
  rw [hs, u32bytes_reconstruct m0 m1 m2 m3]
  rfl

theorem readVertexRecords_bytes :
    ∀ {n : Nat} {s : List Nat} {vs : List Vertex} {s' : List Nat},
      readVertexRecords n s = some (vs, s') → (∀ x ∈ s, x < 256) →
      s = vertexListBytes vs ++ s' := by
  intro n
  induction n with
  | zero =>
      intro s vs s' h hb
      obtain ⟨hvs, hs⟩ := M.pure_inv (a := ([] : List Vertex)) h
      subst hvs; subst hs
      rfl
  | succ n ih =>
      intro s vs s' h hb
      have h' : M.bind read12 (fun vert_buf => M.bind (readVertexRecords n)
          (fun rest => M.pure (as_vertex_le vert_buf :: rest))) s = some (vs, s') := h
      obtain ⟨b, s1, h12, h'⟩ := M.bind_inv h'
      obtain ⟨rest, s2, hrec, hp⟩ := M.bind_inv h'
      obtain ⟨hvs, hs2⟩ := M.pure_inv hp
      obtain ⟨b0, b1, b2, b3, b4, b5, b6, b7, b8, b9, b10, b11, hbb, hs⟩ := read12_inv h12
      subst hvs; subst hs2; subst hbb
      have hb1 : ∀ x ∈ s1, x < 256 :=
        bytes_suffix
          (show s = [b0, b1, b2, b3, b4, b5, b6, b7, b8, b9, b10, b11] ++ s1 by rw [hs]; rfl)
          hb
      have hrec' := ih hrec hb1
      rw [hs, hrec']
      simp only [vertexListBytes, List.append_assoc]
      rw [vertexBytes_reconstruct (hb b0 (by rw [hs]; simp)) (hb b1 (by rw [hs]; simp))
        (hb b2 (by rw [hs]; simp)) (hb b3 (by rw [hs]; simp)) (hb b4 (by rw [hs]; simp))
        (hb b5 (by rw [hs]; simp)) (hb b6 (by rw [hs]; simp)) (hb b7 (by rw [hs]; simp))
        (hb b8 (by rw [hs]; simp)) (hb b9 (by rw [hs]; simp)) (hb b10 (by rw [hs]; simp))
        (hb b11 (by rw [hs]; simp))]
      simp

theorem readFaceRecords_bytes :
    ∀ {n : Nat} {s : List Nat} {fs : List Face} {s' : List Nat},
      readFaceRecords n s = some (fs, s') → (∀ x ∈ s, x < 256) →
      s = faceListBytes fs ++ s' := by
  intro n
  induction n with
  | zero =>
      intro s fs s' h hb
      obtain ⟨hfs, hs⟩ := M.pure_inv (a := ([] : List Face)) h
      subst hfs; subst hs
      rfl
  | succ n ih =>
      intro s fs s' h hb
      have h' : M.bind read12 (fun face_buf => M.bind (readFaceRecords n)
          (fun rest => M.pure (as_face_le face_buf :: rest))) s = some (fs, s') := h
      obtain ⟨b, s1, h12, h'⟩ := M.bind_inv h'
      obtain ⟨rest, s2, hrec, hp⟩ := M.bind_inv h'
      obtain ⟨hfs, hs2⟩ := M.pure_inv hp
      obtain ⟨b0, b1, b2, b3, b4, b5, b6, b7, b8, b9, b10, b11, hbb, hs⟩ := read12_inv h12
      subst hfs; subst hs2; subst hbb
      have hb1 : ∀ x ∈ s1, x < 256 :=
        bytes_suffix
          (show s = [b0, b1, b2, b3, b4, b5, b6, b7, b8, b9, b10, b11] ++ s1 by rw [hs]; rfl)
          hb
      have hrec' := ih hrec hb1
      rw [hs, hrec']
      simp only [faceListBytes, List.append_assoc]
      rw [faceBytes_reconstruct (hb b0 (by rw [hs]; simp)) (hb b1 (by rw [hs]; simp))
        (hb b2 (by rw [hs]; simp)) (hb b3 (by rw [hs]; simp)) (hb b4 (by rw [hs]; simp))
        (hb b5 (by rw [hs]; simp)) (hb b6 (by rw [hs]; simp)) (hb b7 (by rw [hs]; simp))
        (hb b8 (by rw [hs]; simp)) (hb b9 (by rw [hs]; simp)) (hb b10 (by rw [hs]; simp))
        (hb b11 (by rw [hs]; simp))]
      simp

/-- Master reconstruction: on a stream of genuine bytes, re-encoding every
captured field in layout order reproduces the consumed prefix. -/
theorem load_bmf_reconstruct {s : List Nat} {d : BMF} {rest : List Nat}
    (h : load_bmf s = some (d, rest)) (hb : ∀ x ∈ s, x < 256) :
    s = specEncodeBMF d ++ rest := by
  have h' := h
  unfold load_bmf at h'
  simp only [M.bind_def, M.pure_def] at h'
  obtain ⟨hdr, s1, e1, h'⟩ := M.bind_inv h'
  obtain ⟨vh, s2, e2, h'⟩ := M.bind_inv h'
  obtain ⟨vlen, s3, e3, h'⟩ := M.bind_inv h'
  obtain ⟨verts, s4, e4, h'⟩ := M.bind_inv h'
  obtain ⟨vf, s5, e5, h'⟩ := M.bind_inv h'
  obtain ⟨gh, s6, e6, h'⟩ := M.bind_inv h'
  obtain ⟨fh, s7, e7, h'⟩ := M.bind_inv h'
  obtain ⟨flen, s8, e8, h'⟩ := M.bind_inv h'
  obtain ⟨faces, s9, e9, h'⟩ := M.bind_inv h'
  obtain ⟨ff, s10, e10, h'⟩ := M.bind_inv h'
  obtain ⟨nh, s11, e11, h'⟩ := M.bind_inv h'
  obtain ⟨nlen, s12, e12, h'⟩ := M.bind_inv h'
  obtain ⟨norms, s13, e13, h'⟩ := M.bind_inv h'
  obtain ⟨nf, s14, e14, h'⟩ := M.bind_inv h'
  obtain ⟨gf, s15, e15, h'⟩ := M.bind_inv h'
  obtain ⟨ftr, s16, e16, h'⟩ := M.bind_inv h'
  obtain ⟨hd, hrest⟩ := M.pure_inv h'
  have q1 := readU32_bytes e1 hb
  have j1 := bytes_suffix q1 hb
  have q2 := readU32_bytes e2 j1
  have j2 := bytes_suffix q2 j1
  have q3 := readU32_bytes e3 j2
  have j3 := bytes_suffix q3 j2
  have q4 := readVertexRecords_bytes e4 j3
  have j4 := bytes_suffix q4 j3
  have q5 := readU32_bytes e5 j4
  have j5 := bytes_suffix q5 j4
  have q6 := readU32_bytes e6 j5
  have j6 := bytes_suffix q6 j5
  have q7 := readU32_bytes e7 j6
  have j7 := bytes_suffix q7 j6
  have q8 := readU32_bytes e8 j7
  have j8 := bytes_suffix q8 j7
  have q9 := readFaceRecords_bytes e9 j8
  have j9 := bytes_suffix q9 j8
  have q10 := readU32_bytes e10 j9
  have j10 := bytes_suffix q10 j9
  have q11 := readU32_bytes e11 j10
  have j11 := bytes_suffix q11 j10
  have q12 := readU32_bytes e12 j11
  have j12 := bytes_suffix q12 j11
  have q13 := readVertexRecords_bytes e13 j12
  have j13 := bytes_suffix q13 j12
  have q14 := readU32_bytes e14 j13
  have j14 := bytes_suffix q14 j13
  have q15 := readU32_bytes e15 j14
  have j15 := bytes_suffix q15 j14
  have q16 := readU32_bytes e16 j15
  subst hd
  subst hrest
  rw [q1, q2, q3, q4, q5, q6, q7, q8, q9, q10, q11, q12, q13, q14, q15, q16]
  simp [specEncodeBMF, List.append_assoc]

/-! ## Exactness of the binary32 → binary64 conversion -/

theorem sign32_le (b : Nat) : sign32 b ≤ 1 := by
  unfold sign32
  omega

theorem exp32_lt (b : Nat) : exp32 b < 256 := by
  unfold exp32
  omega

theorem frac32_lt (b : Nat) : frac32 b < 2 ^ 23 := by
  unfold frac32
  omega

/-- The embedded `as f64` cast is value-exact on every finite binary32
pattern: the binary64 result denotes the same rational number. -/
theorem f32ToF64bits_exact (b : Nat) (hf : isFinite32 b) :
    val64 (f32ToF64bits b) = val32 b := by
  have hs := sign32_le b
  have he := exp32_lt b
  have hm := frac32_lt b
  unfold isFinite32 at hf
  by_cases he0 : exp32 b = 0
  · by_cases hm0 : frac32 b = 0
    · have hx : f32ToF64bits b = sign32 b * 2 ^ 63 := by
        unfold f32ToF64bits
        rw [if_neg hf, if_pos he0, if_pos hm0]
      have h1 : exp64 (sign32 b * 2 ^ 63) = 0 := by
        unfold exp64
        omega
      have h2 : frac64 (sign32 b * 2 ^ 63) = 0 := by
        unfold frac64
        omega
      rw [hx]
      unfold val64 val32
      rw [if_pos h1, if_pos he0, h2, hm0]
      simp
    · -- subnormal: normalize on the leading bit of the fraction
      have hk1 : 2 ^ Nat.log2 (frac32 b) ≤ frac32 b := Nat.log2_self_le hm0
      have hk2 : frac32 b < 2 * 2 ^ Nat.log2 (frac32 b) := by
        have h := Nat.lt_log2_self (n := frac32 b)
        rw [pow_succ] at h
        omega
      have hk3 : Nat.log2 (frac32 b) < 23 := (Nat.log2_lt hm0).mpr hm
      have hsplit : 2 ^ Nat.log2 (frac32 b) * 2 ^ (52 - Nat.log2 (frac32 b)) = 2 ^ 52 := by
        rw [← pow_add]
        congr 1
        omega
      have hR : (frac32 b - 2 ^ Nat.log2 (frac32 b)) * 2 ^ (52 - Nat.log2 (frac32 b)) <
          2 ^ 52 := by
        calc (frac32 b - 2 ^ Nat.log2 (frac32 b)) * 2 ^ (52 - Nat.log2 (frac32 b))
            < 2 ^ Nat.log2 (frac32 b) * 2 ^ (52 - Nat.log2 (frac32 b)) := by
              apply Nat.mul_lt_mul_of_lt_of_le (by omega) (Nat.le_refl _)
              exact Nat.pos_pow_of_pos _ (by omega)
          _ = 2 ^ 52 := hsplit
      have hx : f32ToF64bits b = sign32 b * 2 ^ 63 + (Nat.log2 (frac32 b) + 874) * 2 ^ 52 +
          (frac32 b - 2 ^ Nat.log2 (frac32 b)) * 2 ^ (52 - Nat.log2 (frac32 b)) := by
        unfold f32ToF64bits
        rw [if_neg hf, if_pos he0, if_neg hm0]
      have h1 : exp64 (f32ToF64bits b) = Nat.log2 (frac32 b) + 874 := by
        rw [hx]
        unfold exp64
        omega
      have h2 : frac64 (f32ToF64bits b) =
          (frac32 b - 2 ^ Nat.log2 (frac32 b)) * 2 ^ (52 - Nat.log2 (frac32 b)) := by
        rw [hx]
        unfold frac64
        omega
      have h3 : sign64 (f32ToF64bits b) = sign32 b := by
        rw [hx]
        unfold sign64
        omega
      unfold val64 val32
      rw [if_pos he0, h1, h2, h3, if_neg (by omega)]
      have hcast : ((2 ^ 52 + (frac32 b - 2 ^ Nat.log2 (frac32 b)) *
          2 ^ (52 - Nat.log2 (frac32 b)) : ℕ) : ℚ) =
          (2 : ℚ) ^ (52 - Nat.log2 (frac32 b)) * (frac32 b : ℚ) := by
        push_cast [Nat.cast_sub hk1]
        have h52 : ((4503599627370496 : ℚ)) =
            (2 : ℚ) ^ Nat.log2 (frac32 b) * (2 : ℚ) ^ (52 - Nat.log2 (frac32 b)) := by
          rw [← pow_add, show Nat.log2 (frac32 b) + (52 - Nat.log2 (frac32 b)) = 52 by omega]
          norm_num
        rw [h52]
        ring
      rw [hcast]
      have hexpz : ((Nat.log2 (frac32 b) + 874 : ℕ) : ℤ) - 1075 =
          (Nat.log2 (frac32 b) : ℤ) - 201 := by
        push_cast
        ring
      rw [hexpz]
      have hpow : ((2 : ℚ) ^ (52 - Nat.log2 (frac32 b) : ℕ)) *
          (2 : ℚ) ^ ((Nat.log2 (frac32 b) : ℤ) - 201) = (2 : ℚ) ^ (-(149 : ℤ)) := by
        have hexp2 : ((52 - Nat.log2 (frac32 b) : ℕ) : ℤ) +
            ((Nat.log2 (frac32 b) : ℤ) - 201) = -(149 : ℤ) := by
          push_cast [Nat.cast_sub (by omega : Nat.log2 (frac32 b) ≤ 52)]
          omega
        rw [← zpow_natCast (2 : ℚ) (52 - Nat.log2 (frac32 b)),
          ← zpow_add₀ (two_ne_zero : (2 : ℚ) ≠ 0), hexp2]
      linear_combination ((-1 : ℚ) ^ sign32 b * (frac32 b : ℚ)) * hpow
  · -- normal
    have hx : f32ToF64bits b = sign32 b * 2 ^ 63 + (exp32 b + 896) * 2 ^ 52 +
        frac32 b * 2 ^ 29 := by
      unfold f32ToF64bits
      rw [if_neg hf, if_neg he0]
    have h1 : exp64 (f32ToF64bits b) = exp32 b + 896 := by
      rw [hx]
      unfold exp64
      omega
    have h2 : frac64 (f32ToF64bits b) = frac32 b * 2 ^ 29 := by
      rw [hx]
      unfold frac64
      omega
    have h3 : sign64 (f32ToF64bits b) = sign32 b := by
      rw [hx]
      unfold sign64
      omega
    unfold val64 val32
    rw [if_neg he0, h1, h2, h3, if_neg (by omega)]
    have hexpz : ((exp32 b + 896 : ℕ) : ℤ) - 1075 = ((exp32 b : ℤ) - 150) + (-29) := by
      push_cast
      ring
    rw [hexpz, zpow_add₀ (two_ne_zero : (2 : ℚ) ≠ 0)]
    have h29 : (2 : ℚ) ^ (-29 : ℤ) * (2 : ℚ) ^ (29 : ℕ) = 1 := by
      rw [← zpow_natCast (2 : ℚ) 29, ← zpow_add₀ (two_ne_zero : (2 : ℚ) ≠ 0)]
      norm_num
    push_cast
    linear_combination
      ((-1 : ℚ) ^ sign32 b * (2 ^ 23 + (frac32 b : ℚ)) *
        (2 : ℚ) ^ ((exp32 b : ℤ) - 150)) * h29

/-! ## Concrete documents and streams used by the witnesses -/

/-- The end-to-end example of spec §8: one vertex `(1.0, 2.0, 3.0)` (as
binary32 patterns), one face `(0, 0, 0)`, no normals, all markers zero. -/
def exampleBMF : BMF :=
  { header := 0
    vertices :=
      { header := 0, len := 1,
        vertices := [{ x := 1065353216, y := 1073741824, z := 1077936128 }], footer := 0 }
    group :=
      { header := 0
        faces := { header := 0, len := 1, faces := [{ a := 0, b := 0, c := 0 }], footer := 0 }
        normals := { header := 0, len := 0, normals := [], footer := 0 }
        footer := 0 }
    footer := 0 }

/-- The empty document: every count zero, every marker zero (52 zero bytes
on the wire). -/
def emptyBMF : BMF :=
  { header := 0
    vertices := { header := 0, len := 0, vertices := [], footer := 0 }
    group :=
      { header := 0
        faces := { header := 0, len := 0, faces := [], footer := 0 }
        normals := { header := 0, len := 0, normals := [], footer := 0 }
        footer := 0 }
    footer := 0 }

/-- A well-formed 52-byte document followed by one trailing byte the
decoder never reads. -/
def paddedStream : List Nat := specEncodeBMF emptyBMF ++ [7]

/-! ## The claims -/

/-- C1: for every byte stream laid out per the spec's fixed BMF format
(document header; vertices header, count N, N 12-byte vertex records,
footer; group header; faces block; normals block; group footer; document
footer — all fields 32-bit little-endian), `load_bmf` returns `Ok` of a
document whose fields equal exactly the values decoded from those bytes in
that order, each block's count determining exactly how many records are
consumed. -/
theorem claim_C1_decode_encoded_layout (d : BMF) (h : wfBMF d) :
    load_bmf (specEncodeBMF d) = some (d, []) :=
  load_bmf_specEncode d h

theorem claim_C1_witness :
    wfBMF exampleBMF ∧ load_bmf (specEncodeBMF exampleBMF) = some (exampleBMF, []) :=
  ⟨by decide, claim_C1_decode_encoded_layout exampleBMF (by decide)⟩

/-- C2: for every byte stream that decodes completely, truncating at any
byte offset strictly before the final required byte makes `load_bmf` fail
with no document: the decode aborts at the first unsatisfiable read. -/
theorem claim_C2_truncation_fails (s : List Nat) (d : BMF)
    (h : load_bmf s = some (d, [])) (k : Nat) (hk : k < s.length) :
    load_bmf (s.take k) = none := by
  obtain ⟨c, hs, -, htr⟩ := consumed_load_bmf s d [] h
  have hc : s = c := by simpa using hs
  subst hc
  exact htr k hk

theorem claim_C2_witness :
    load_bmf (specEncodeBMF exampleBMF) = some (exampleBMF, []) ∧
    (10 : Nat) < (specEncodeBMF exampleBMF).length ∧
    load_bmf ((specEncodeBMF exampleBMF).take 10) = none :=
  ⟨by decide, by decide,
    claim_C2_truncation_fails (specEncodeBMF exampleBMF) exampleBMF (by decide) 10 (by decide)⟩

/-- C3: for every valid byte stream following the fixed layout, decoding
with `load_bmf` and re-encoding the captured header, footer, count,
vertex, face and normal fields back to little-endian bytes in layout order
reproduces the original stream exactly. -/
theorem claim_C3_structural_roundtrip (s : List Nat) (d : BMF)
    (hb : ∀ x ∈ s, x < 256) (h : load_bmf s = some (d, [])) :
    specEncodeBMF d = s := by
  have := load_bmf_reconstruct h hb
  simpa using this.symm

theorem claim_C3_witness :
    (∀ x ∈ specEncodeBMF exampleBMF, x < 256) ∧
    load_bmf (specEncodeBMF exampleBMF) = some (exampleBMF, []) ∧
    specEncodeBMF exampleBMF = specEncodeBMF exampleBMF :=
  ⟨by decide, by decide,
    claim_C3_structural_roundtrip (specEncodeBMF exampleBMF) exampleBMF (by decide) (by decide)⟩

/-- C4: on every successful decode, a block whose count field is 0 yields
an empty element list, and in general the count fields alone determine the
number of 12-byte records consumed: the stream length splits as 52 fixed
bytes plus 12 bytes per counted record plus the leftover. -/
theorem claim_C4_zero_count_empty (s : List Nat) (d : BMF) (rest : List Nat)
    (h : load_bmf s = some (d, rest)) :
    (d.vertices.len = 0 → d.vertices.vertices = []) ∧
    (d.group.faces.len = 0 → d.group.faces.faces = []) ∧
    (d.group.normals.len = 0 → d.group.normals.normals = []) ∧
    s.length = 52 + 12 * (d.vertices.len + d.group.faces.len + d.group.normals.len) +
      rest.length := by
  obtain ⟨l1, l2, l3, l4, -⟩ := load_bmf_inv h
  refine ⟨?_, ?_, ?_, l4⟩
  · intro h0
    have : d.vertices.vertices.length = 0 := by omega
    exact List.length_eq_zero.mp this
  · intro h0
    have : d.group.faces.faces.length = 0 := by omega
    exact List.length_eq_zero.mp this
  · intro h0
    have : d.group.normals.normals.length = 0 := by omega
    exact List.length_eq_zero.mp this

theorem claim_C4_witness :
    emptyBMF.vertices.vertices = [] ∧
    emptyBMF.group.faces.faces = [] ∧
    emptyBMF.group.normals.normals = [] ∧
    (specEncodeBMF emptyBMF).length = 52 + 12 * (emptyBMF.vertices.len +
      emptyBMF.group.faces.len + emptyBMF.group.normals.len) + ([] : List Nat).length := by
  have h := claim_C4_zero_count_empty (specEncodeBMF emptyBMF) emptyBMF [] (by decide)
  exact ⟨h.1 rfl, h.2.1 rfl, h.2.2.1 rfl, h.2.2.2⟩

/-- C5: `load_bmf` never fails because of the values of any header or
footer marker: a stream whose counts and lengths are structurally
consistent decodes successfully whatever 32-bit values sit in the
document, vertices, group, faces and normals headers and footers, and
those markers are stored in the result verbatim. -/
theorem claim_C5_markers_opaque
    (dh vh vf gh fh ff nh nf gf df : Nat)
    (verts : List Vertex) (faces : List Face) (norms : List Vertex)
    (hdh : dh < 2 ^ 32) (hvh : vh < 2 ^ 32) (hvf : vf < 2 ^ 32) (hgh : gh < 2 ^ 32)
    (hfh : fh < 2 ^ 32) (hff : ff < 2 ^ 32) (hnh : nh < 2 ^ 32) (hnf : nf < 2 ^ 32)
    (hgf : gf < 2 ^ 32) (hdf : df < 2 ^ 32)
    (hverts : ∀ v ∈ verts, wfVertex v) (hfaces : ∀ f ∈ faces, wfFace f)
    (hnorms : ∀ v ∈ norms, wfVertex v)
    (hlv : verts.length < 2 ^ 32) (hlf : faces.length < 2 ^ 32)
    (hln : norms.length < 2 ^ 32) :
    load_bmf (specEncodeBMF
      { header := dh
        vertices := { header := vh, len := verts.length, vertices := verts, footer := vf }
        group :=
          { header := gh
            faces := { header := fh, len := faces.length, faces := faces, footer := ff }
            normals := { header := nh, len := norms.length, normals := norms, footer := nf }
            footer := gf }
        footer := df }) =
      some
        ({ header := dh
           vertices := { header := vh, len := verts.length, vertices := verts, footer := vf }
           group :=
             { header := gh
               faces := { header := fh, len := faces.length, faces := faces, footer := ff }
               normals := { header := nh, len := norms.length, normals := norms, footer := nf }
               footer := gf }
           footer := df }, []) :=
  load_bmf_specEncode _
    ⟨hdh, hdf, hvh, hvf, rfl, hverts, hgh, hgf, hfh, hff, rfl, hfaces, hnh, hnf, rfl,
      hnorms, hlv, hlf, hln⟩

theorem claim_C5_witness :
    load_bmf (specEncodeBMF
      { header := 3735928559
        vertices :=
          { header := 2863311530, len := 1,
            vertices := [{ x := 1065353216, y := 1073741824, z := 1077936128 }],
            footer := 1431655765 }
        group :=
          { header := 4042322160
            faces := { header := 252645135, len := 1,
                       faces := [{ a := 0, b := 0, c := 0 }], footer := 4294967295 }
            normals := { header := 1, len := 0, normals := [], footer := 2 }
            footer := 3 }
        footer := 4 }) =
      some
        ({ header := 3735928559
           vertices :=
             { header := 2863311530, len := 1,
               vertices := [{ x := 1065353216, y := 1073741824, z := 1077936128 }],
               footer := 1431655765 }
           group :=
             { header := 4042322160
               faces := { header := 252645135, len := 1,
                          faces := [{ a := 0, b := 0, c := 0 }], footer := 4294967295 }
               normals := { header := 1, len := 0, normals := [], footer := 2 }
               footer := 3 }
           footer := 4 }, []) :=
  claim_C5_markers_opaque 3735928559 2863311530 1431655765 4042322160 252645135 4294967295
    1 2 3 4 [{ x := 1065353216, y := 1073741824, z := 1077936128 }]
    [{ a := 0, b := 0, c := 0 }] [] (by decide) (by decide) (by decide) (by decide)
    (by decide) (by decide) (by decide) (by decide) (by decide) (by decide) (by decide)
    (by decide) (by decide) (by decide) (by decide) (by decide)

/-- C6: the mapper widens each decoded vertex coordinate from binary32 to
binary64 in place (same position, no scaling, no coordinate change), and
on every finite binary32 value the widening is exact: the binary64 result
denotes the same real number. -/
theorem claim_C6_vertex_widening_exact (d : BMF) (i : Nat) (v : Vertex)
    (hv : d.vertices.vertices.get? i = some v)
    (hx : isFinite32 v.x) (hy : isFinite32 v.y) (hz : isFinite32 v.z) :
    (obj_verts d).get? i = some
      { x := f32ToF64bits v.x, y := f32ToF64bits v.y, z := f32ToF64bits v.z } ∧
    val64 (f32ToF64bits v.x) = val32 v.x ∧
    val64 (f32ToF64bits v.y) = val32 v.y ∧
    val64 (f32ToF64bits v.z) = val32 v.z := by
  refine ⟨?_, f32ToF64bits_exact v.x hx, f32ToF64bits_exact v.y hy,
    f32ToF64bits_exact v.z hz⟩
  unfold obj_verts
  rw [List.get?_map, hv]
  rfl

theorem claim_C6_witness :
    (obj_verts exampleBMF).get? 0 = some
      { x := f32ToF64bits 1065353216, y := f32ToF64bits 1073741824,
        z := f32ToF64bits 1077936128 } ∧
    val64 (f32ToF64bits 1065353216) = val32 1065353216 ∧
    val64 (f32ToF64bits 1073741824) = val32 1073741824 ∧
    val64 (f32ToF64bits 1077936128) = val32 1077936128 :=
  claim_C6_vertex_widening_exact exampleBMF 0
    { x := 1065353216, y := 1073741824, z := 1077936128 }
    (by decide) (by decide) (by decide) (by decide)

/-- C7: each decoded face maps to a triangle shape whose three vertex
indices are the face's `a`, `b`, `c` values unchanged (no bounds check, no
renumbering), each reference carrying no texture-coordinate index and no
normal index, with no group or smoothing-group tags. -/
theorem claim_C7_face_passthrough (d : BMF) (i : Nat) (f : Face)
    (hf : d.group.faces.faces.get? i = some f) :
    (obj_shapes d).length = d.group.faces.faces.length ∧
    (obj_shapes d).get? i = some
      { primitive :=
          Primitive.Triangle (f.a, none, none) (f.b, none, none) (f.c, none, none)
        groups := []
        smoothing_groups := [] } := by
  constructor
  · unfold obj_shapes
    rw [List.length_map]
  · unfold obj_shapes
    rw [List.get?_map, hf]
    rfl

theorem claim_C7_witness :
    (obj_shapes exampleBMF).length = exampleBMF.group.faces.faces.length ∧
    (obj_shapes exampleBMF).get? 0 = some
      { primitive := Primitive.Triangle (0, none, none) (0, none, none) (0, none, none)
        groups := []
        smoothing_groups := [] } :=
  claim_C7_face_passthrough exampleBMF 0 { a := 0, b := 0, c := 0 } (by decide)

/-- C8: for every decoded document — whatever its vertex, face and normal
counts, including zero — the output object graph has no material library,
exactly one object, and that object is unnamed, has no texture vertices,
no normals (decoded normals are discarded), exactly one geometry block
with no material name, and no group or smoothing-group tags on any
shape. -/
theorem claim_C8_output_graph_shape (d : BMF) :
    (object_set d).material_library = none ∧
    (object_set d).objects.length = 1 ∧
    ((object_set d).objects.all fun o =>
      (o.name == "") && o.tex_vertices.isEmpty && o.normals.isEmpty &&
      (o.geometry.length == 1) &&
      (o.geometry.all fun g => g.material_name.isNone &&
        (g.shapes.all fun sh => sh.groups.isEmpty && sh.smoothing_groups.isEmpty))) =
      true := by
  refine ⟨rfl, rfl, ?_⟩
  simp only [object_set, obj_shapes, List.all_cons, List.all_nil, List.all_map,
    List.all_eq_true, Function.comp]
  simp

/-- C9 counterexample: the decoder does not read the byte source to
completion — on a stream with one byte after the document footer it
succeeds and leaves that byte unconsumed. -/
theorem claim_C9_counterexample :
    load_bmf paddedStream = some (emptyBMF, [7]) ∧ ([7] : List Nat) ≠ [] :=
  ⟨by decide, by decide⟩

/-- C9 (amended): on every successful decode `load_bmf` consumes exactly
the fixed layout's `52 + 12·(N+M+P)` bytes; whatever follows them in the
source is left unread, as the leftover suffix of the stream. -/
theorem claim_C9_amended_exact_consumption (s : List Nat) (d : BMF) (rest : List Nat)
    (h : load_bmf s = some (d, rest)) :
    s.length = 52 + 12 * (d.vertices.len + d.group.faces.len + d.group.normals.len) +
      rest.length ∧
    rest = s.drop (52 + 12 * (d.vertices.len + d.group.faces.len + d.group.normals.len)) := by
  obtain ⟨-, -, -, h4, h5⟩ := load_bmf_inv h
  exact ⟨h4, h5⟩

theorem claim_C9_witness :
    load_bmf paddedStream = some (emptyBMF, [7]) ∧
    paddedStream.length = 52 + 12 * (emptyBMF.vertices.len + emptyBMF.group.faces.len +
      emptyBMF.group.normals.len) + ([7] : List Nat).length ∧
    ([7] : List Nat) = paddedStream.drop (52 + 12 * (emptyBMF.vertices.len +
      emptyBMF.group.faces.len + emptyBMF.group.normals.len)) :=
  ⟨by decide, claim_C9_amended_exact_consumption paddedStream emptyBMF [7] (by decide)⟩

/-- C10: on every successful decode the stored count fields agree with the
materialized lists: `vertices.len`, `group.faces.len` and
`group.normals.len` equal the lengths of the respective lists. -/
theorem claim_C10_counts_agree (s : List Nat) (d : BMF) (rest : List Nat)
    (h : load_bmf s = some (d, rest)) :
    d.vertices.len = d.vertices.vertices.length ∧
    d.group.faces.len = d.group.faces.faces.length ∧
    d.group.normals.len = d.group.normals.normals.length := by
  obtain ⟨l1, l2, l3, -, -⟩ := load_bmf_inv h
  exact ⟨l1.symm, l2.symm, l3.symm⟩

theorem claim_C10_witness :
    exampleBMF.vertices.len = exampleBMF.vertices.vertices.length ∧
    exampleBMF.group.faces.len = exampleBMF.group.faces.faces.length ∧
    exampleBMF.group.normals.len = exampleBMF.group.normals.normals.length :=
  claim_C10_counts_agree (specEncodeBMF exampleBMF) exampleBMF [] (by decide)

end Bmf2Obj
